import Mathlib

set_option autoImplicit false

namespace M2CS

/-! Cache data model

Shallow embedding of `src/internal/caching/cache.go`. The Go map
`map[string]*FileInformation` is modelled as an association list with
unique keys; `time.Time` is modelled as a natural-number instant, and
`time.Duration` (the TTL) as a natural number on the same clock, so that
`t.Before(now.Add(-ttl))` becomes `t + ttl < now`.
-/

/-- Byte payloads (`[]byte`) are modelled as lists of naturals. -/
abbrev Bytes := List Nat

structure FileInformation where
  data : Bytes
  createAt : Nat
  deriving DecidableEq, Repr

structure CacheOptions where
  Enabled : Bool
  MaxSizeMB : Nat
  TTL : Nat
  MaxItems : Nat
  deriving DecidableEq, Repr

/-- The cache's entry map, in some fixed iteration order. -/
abbrev CacheMap := List (String × FileInformation)

/-- Go map indexing `m[k]`. -/
def lookupKey : CacheMap → String → Option FileInformation
  | [], _ => none
  | e :: rest, k => if e.1 = k then some e.2 else lookupKey rest k

/-- Go `delete(m, k)` (removes the sole binding of `k`, if any). -/
def eraseKey : CacheMap → String → CacheMap
  | [], _ => []
  | e :: rest, k => if e.1 = k then rest else e :: eraseKey rest k

/-- In-place overwrite `m[k].data = d; m[k].createAt = now`. -/
def updateKey : CacheMap → String → Bytes → Nat → CacheMap
  | [], _, _, _ => []
  | e :: rest, k, d, now =>
    if e.1 = k then (k, ⟨d, now⟩) :: rest else e :: updateKey rest k d now

/-- The `oldestFile`/`oldestTime` scan inside `FileCache.Store`:
starting from `best = ""` and `bestT = time.Now()`, keep the strictly
oldest `createAt` seen so far. -/
def findOldestAux : CacheMap → String → Nat → String × Nat
  | [], best, bestT => (best, bestT)
  | e :: rest, best, bestT =>
    if e.2.createAt < bestT then findOldestAux rest e.1 e.2.createAt
    else findOldestAux rest best bestT

def findOldest (m : CacheMap) (now : Nat) : String :=
  (findOldestAux m "" now).1

namespace FileCache

/-- The embedding of `FileCache.Store` from cache.go: no-op when disabled or when the
payload exceeds `MaxSizeMB` megabytes; overwrite in place when the key
exists; otherwise insert, and when the count exceeds `MaxItems` delete
the entry found by the oldest-scan. -/
def Store (opts : CacheOptions) (m : CacheMap) (fileName : String)
    (data : Bytes) (now : Nat) : CacheMap :=
  if opts.Enabled = false then m
  else if data.length > opts.MaxSizeMB * 1024 * 1024 then m
  else
    match lookupKey m fileName with
    | some _ => updateKey m fileName data now
    | none =>
      let m2 := m ++ [(fileName, ⟨data, now⟩)]
      if m2.length > opts.MaxItems then eraseKey m2 (findOldest m2 now) else m2

/-- The embedding of `FileCache.GetFile` from cache.go: `none` when disabled or absent;
lazy expiry deletes an entry whose age exceeds the TTL; otherwise the
stored bytes are returned. The second component is the map afterwards. -/
def GetFile (opts : CacheOptions) (m : CacheMap) (fileName : String)
    (now : Nat) : Option Bytes × CacheMap :=
  if opts.Enabled = false then (none, m)
  else
    match lookupKey m fileName with
    | none => (none, m)
    | some fi =>
      if fi.createAt + opts.TTL < now then (none, eraseKey m fileName)
      else (some fi.data, m)

/-- The embedding of `FileCache.Invalidate` from cache.go. -/
def Invalidate (m : CacheMap) (fileName : String) : CacheMap :=
  eraseKey m fileName

end FileCache

/-! FileClient replication model

Shallow embedding of the orchestrator in `src/FileClient.go`
(`PutObject`, `RemoveObject`). A backend (`filestorage.FileStorage`)
is modelled by its static properties together with the outcome each of
its operations would have for the call under consideration: `putErr`
(resp. `removeErr`) is `none` when `storage.PutObject`
(resp. `storage.RemoveObject`) succeeds and `some e` when it fails with
error text `e`. `typeName` stands for Go's `%T` rendering of the
concrete client type.
-/

inductive CompressionAlgorithm
  | NO_COMPRESSION
  | GZIP_COMPRESSION
  deriving DecidableEq, Repr

inductive EncryptionAlgorithm
  | NO_ENCRYPTION
  | AES256_ENCRYPTION
  deriving DecidableEq, Repr

/-- The embedding of `common.ConnectionProperties` from src/pkg/common.go. -/
structure ConnectionProperties where
  IsMainInstance : Bool
  SaveEncrypt : EncryptionAlgorithm
  SaveCompress : CompressionAlgorithm
  deriving DecidableEq, Repr

structure Storage where
  typeName : String
  props : ConnectionProperties
  putErr : Option String
  removeErr : Option String
  deriving DecidableEq, Repr

inductive ReplicationMode
  | SYNC_REPLICATION
  | ASYNC_REPLICATION
  deriving DecidableEq, Repr

/-- The `mains` filter at the top of `PutObject`/`RemoveObject`. -/
def mainsOf (storages : List Storage) : List Storage :=
  storages.filter (fun s => s.props.IsMainInstance)

/-- The embedding of `errors.Join` renders the joined errors separated by newlines. -/
def joinErrs (errs : List String) : String :=
  String.intercalate "\x0a" errs

/-- The `errs` list of the `SYNC_REPLICATION` branch of `PutObject`. -/
def syncErrs (mains : List Storage) : List String :=
  mains.filterMap (fun s =>
    s.putErr.map (fun e => "[sync] PutObject failed on " ++ s.typeName ++ ": " ++ e))

/-- The first loop of the `ASYNC_REPLICATION` branch of `PutObject`:
try main storages in list order until the first success; on success at
index `i`, return the remaining list `mains[:i] ++ mains[i+1:]` (the
storages later handed to background goroutines). `none` when every
attempt fails. -/
def asyncTry : List Storage → Option (List Storage)
  | [] => none
  | s :: rest =>
    if s.putErr = none then some rest
    else (asyncTry rest).map (fun bg => s :: bg)

/-- The storages whose `PutObject` the `ASYNC_REPLICATION` loop invokes
synchronously: the failing prefix together with the first success. -/
def asyncAttempted : List Storage → List Storage
  | [] => []
  | s :: rest => if s.putErr = none then [s] else s :: asyncAttempted rest

/-- Result of a `PutObject` call: the returned error (`none` = success),
the storages written synchronously during the call, the storages handed
to detached background goroutines, and the cache map after the call. -/
structure PutOutcome where
  err : Option String
  attempted : List Storage
  background : List Storage
  cache : CacheMap
  deriving DecidableEq, Repr

/-- The embedding of `FileClient.PutObject` from src/FileClient.go (replication and cache
effects; the payload bytes are not material to the claims modelled
here, backend outcomes being supplied by each `Storage`). -/
def putObject (mode : ReplicationMode) (storages : List Storage)
    (cacheEnabled : Bool) (cache : CacheMap)
    (storeBox fileName : String) : PutOutcome :=
  let mains := mainsOf storages
  if mains.length = 0 then
    ⟨some "no main instance found for PutObject operation", [], [], cache⟩
  else
    match mode with
    | .ASYNC_REPLICATION =>
      match asyncTry mains with
      | none =>
        ⟨some "[async] PutObject failed on all main storages", asyncAttempted mains, [], cache⟩
      | some bg =>
        ⟨none, asyncAttempted mains, bg,
          if cacheEnabled then FileCache.Invalidate cache (storeBox ++ "/" ++ fileName)
          else cache⟩
    | .SYNC_REPLICATION =>
      let errs := syncErrs mains
      if errs.length = 0 then
        ⟨none, mains, [],
          if cacheEnabled then FileCache.Invalidate cache (storeBox ++ "/" ++ fileName)
          else cache⟩
      else if errs.length = mains.length then
        ⟨some ("[sync] PutObject failed on all " ++ Nat.repr mains.length
          ++ " storages: " ++ joinErrs errs), mains, [], cache⟩
      else
        ⟨some ("[sync] PutObject " ++ ("partially failed on " ++ Nat.repr errs.length
          ++ "/" ++ Nat.repr mains.length) ++ (" storages: " ++ joinErrs errs)), mains, [], cache⟩

/-- The `errs` list collected by `RemoveObject`'s goroutines (one valid
interleaving order; only its length reaches the returned messages). -/
def removeErrsOf (mains : List Storage) : List String :=
  mains.filterMap (fun s =>
    s.removeErr.map (fun e => "RemoveObject failed on storage " ++ s.typeName ++ ": " ++ e))

/-- The embedding of `FileClient.RemoveObject` from src/FileClient.go: dispatch to all
main storages, wait for all, aggregate. Note the partial-failure
message's denominator is `len(f.storages)`, the total storage count. -/
def removeObject (storages : List Storage) (cacheEnabled : Bool)
    (cache : CacheMap) (storeBox fileName : String) : Option String × CacheMap :=
  let mains := mainsOf storages
  if mains.length = 0 then
    (some "no main instance found for RemoveObject operation", cache)
  else
    let errs := removeErrsOf mains
    if errs.length = 0 then
      (none,
        if cacheEnabled then FileCache.Invalidate cache (storeBox ++ "/" ++ fileName)
        else cache)
    else if errs.length = mains.length then
      (some ("RemoveObject failed on all main storages: " ++ joinErrs errs), cache)
    else
      (some ("RemoveObject " ++ ("partially failed on " ++ Nat.repr errs.length
        ++ "/" ++ Nat.repr storages.length) ++ (" storages: " ++ joinErrs errs)), cache)

/-! Load balancing

Shallow embedding of `internal/loadbalancing` (`classic.go` and the
round-robin balancer). A `Client` is identified by `id` and by whether
its `GetObject` succeeds for the call under consideration; the served
object itself is not material to the claims, so `Apply` returns the
serving client (`none` standing for the error return). -/

structure Client where
  id : Nat
  getOk : Bool
  deriving DecidableEq, Repr

instance : Inhabited Client := ⟨⟨0, false⟩⟩

structure ClientGroup where
  Clients : List Client
  deriving DecidableEq, Repr

/-- Try clients in order, returning the first whose `GetObject` succeeds. -/
def firstSuccess : List Client → Option Client
  | [] => none
  | c :: rest => if c.getOk then some c else firstSuccess rest

/-- All clients of a group list, groups in order, clients in list order
(the iteration order of `classicLB.Apply`). -/
def allClients (gs : List ClientGroup) : List Client :=
  (gs.map ClientGroup.Clients).flatten

/-- The embedding of `classicLB.Apply` from classic.go (`none` = the aggregated
"all clients failed" / empty-group error). -/
def classicApply (groups : List ClientGroup) : Option Client :=
  firstSuccess (allClients groups)

/-- The `primary` slice built by `roundRobinLB.Apply`:
`primary[i] = clients[(start+i) % clientNum]` for `i < clientNum`. -/
def buildPrimary (clients : List Client) (start : Nat) : List Client :=
  (List.range clients.length).map
    (fun i => clients.getD ((start + i) % clients.length) default)

/-- The embedding of `roundRobinLB.Apply` from the round-robin balancer: rotate the
primary (first) group starting at `currentClient % clientNum`, advance
the cursor, and on total failure of the primary group fall back to the
remaining groups in classic order. Returns the serving client and the
cursor afterwards. -/
def roundRobinApply (group : List ClientGroup) (currentClient : Nat) :
    Option Client × Nat :=
  match group with
  | [] => (none, currentClient)
  | g0 :: rest =>
    if 0 < g0.Clients.length then
      let clientNum := g0.Clients.length
      let start := currentClient % clientNum
      let cursorNext := (start + 1) % clientNum
      let primary := buildPrimary g0.Clients start
      match firstSuccess primary with
      | some c => (some c, cursorNext)
      | none => (firstSuccess (allClients rest), cursorNext)
    else
      (firstSuccess (allClients rest), currentClient)

/-- Iterating `k` sequential `Apply` calls threading the rotating cursor,
collecting each call's serving client. -/
def rrRun : Nat → List ClientGroup → Nat → List (Option Client)
  | 0, _, _ => []
  | k + 1, g, cur =>
    let r := roundRobinApply g cur
    r.1 :: rrRun k g r.2

/-! Sampling validation

Shallow embedding of `src/internal/caching/SamplingValidation.go`.
`rand.Shuffle` is externalized: `Apply` receives the already-shuffled
snapshot (theorems quantify over any permutation of the snapshot).
The two lock regions are modelled by letting the deletion phase run on
a cache state `cache2` that may differ from the snapshotted one, and by
the two distinct `time.Now()` readings `nowCheck` (the expiry test on
snapshot timestamps) and `nowRecheck` (the re-check under the lock). -/

/-- The `(key, createAt)` snapshot taken under the data lock. -/
def snapshotOf (cache : CacheMap) : List (String × Nat) :=
  cache.map (fun e => (e.1, e.2.createAt))

/-- The embedding of `sampleCount` as computed by `SamplingValidation.Apply`:
`ceil(n * rate / 100)`, raised to 1 when zero, clamped to `n`. -/
def sampleCountOf (n rate : Nat) : Nat :=
  let c := (n * rate + 99) / 100
  let c2 := if c = 0 then 1 else c
  if c2 > n then n else c2

/-- One iteration of the deletion loop: skip zero timestamps; for a
snapshot-expired key, delete only when the entry is still present with
an unchanged timestamp and still expired at the fresh reading. -/
def validateStep (ttl nowCheck nowRecheck : Nat) (c : CacheMap)
    (e : String × Nat) : CacheMap :=
  if e.2 = 0 then c
  else if e.2 + ttl < nowCheck then
    match lookupKey c e.1 with
    | some fi =>
      if fi.createAt = e.2 then
        if fi.createAt + ttl < nowRecheck then eraseKey c e.1 else c
      else c
    | none => c
  else c

def validateLoop (sampled : List (String × Nat)) (ttl nowCheck nowRecheck : Nat)
    (c : CacheMap) : CacheMap :=
  sampled.foldl (validateStep ttl nowCheck nowRecheck) c

structure SamplingValidation where
  SampleRate : Nat
  deriving DecidableEq, Repr

structure SamplingOutcome where
  err : Option String
  sampled : List (String × Nat)
  cache : CacheMap
  deriving DecidableEq, Repr

/-- The embedding of `SamplingValidation.Apply`: error on zero TTL; clamp the rate to
100; no-op at rate 0 or on an empty snapshot; otherwise sample the
first `sampleCount` shuffled snapshot pairs and run the deletion loop. -/
def SamplingValidation.Apply (sv : SamplingValidation) (ttl : Nat)
    (shuffled : List (String × Nat)) (nowCheck nowRecheck : Nat)
    (cache2 : CacheMap) : SamplingOutcome :=
  if ttl = 0 then
    ⟨some "cache TTL must be greater than zero for sampling validation", [], cache2⟩
  else
    let rate := if sv.SampleRate > 100 then 100 else sv.SampleRate
    if rate = 0 then ⟨none, [], cache2⟩
    else
      let n := shuffled.length
      if n = 0 then ⟨none, [], cache2⟩
      else
        let sampled := shuffled.take (sampleCountOf n rate)
        ⟨none, sampled, validateLoop sampled ttl nowCheck nowRecheck cache2⟩

/-! Transform pipeline

Shallow embedding of `src/pkg/transform` (`transform.go`,
`encryption/aesgcm256.go`, `compression/gzip.go`). The Go standard
library primitives are external collaborators: the AES-256-GCM AEAD
family is a parameter `aeadOf` mapping a 32-byte key to an AEAD
(`Seal`/`Open`/`NonceSize`), SHA-256 is a parameter `shaFn`, and gzip is
a parameter pair `gzipFn`/`gunzipFn`; theorems assume of them exactly
the documented stdlib contracts (e.g. `Open` inverts `Seal`). The
repository's own logic — key derivation from the passphrase, the
`nonce ‖ ciphertext` layout, the length guard, step ordering — is
modelled from the source. -/

structure AEAD where
  nonceSize : Nat
  Seal : Bytes → Bytes → Bytes
  Open : Bytes → Bytes → Option Bytes

structure AESGCMEncrypt where
  Key : String

/-- The embedding of `AESGCMEncrypt.Apply` from aesgcm256.go: fail fast on a missing
key; derive the AES key as the SHA-256 digest of the passphrase; seal
with a fresh nonce (supplied here as `nonce`) and prepend the nonce to
the AEAD output. -/
def AESGCMEncrypt.Apply (aeadOf : Bytes → AEAD) (shaFn : String → Bytes)
    (a : AESGCMEncrypt) (nonce : Bytes) (reader : Bytes) : Except String Bytes :=
  if a.Key = "" then .error "aesgcm: missing key"
  else
    let key := shaFn a.Key
    let aead := aeadOf key
    .ok (nonce ++ aead.Seal nonce reader)

structure AESGCMDecrypt where
  Key : String

/-- The embedding of `AESGCMDecrypt.Apply` from aesgcm256.go: fail fast on a missing
key; reject inputs shorter than the nonce length; split nonce from
ciphertext and `Open`, failing with a typed error on tag mismatch. -/
def AESGCMDecrypt.Apply (aeadOf : Bytes → AEAD) (shaFn : String → Bytes)
    (t : AESGCMDecrypt) (cipherBytes : Bytes) : Except String Bytes :=
  if t.Key = "" then .error "aesgcm: missing key"
  else
    let key := shaFn t.Key
    let aead := aeadOf key
    if cipherBytes.length < aead.nonceSize then
      .error "aesgcm: invalid ciphertext (too short)"
    else
      let nonce := cipherBytes.take aead.nonceSize
      let ciphertext := cipherBytes.drop aead.nonceSize
      match aead.Open nonce ciphertext with
      | some plain => .ok plain
      | none => .error "aesgcm: decryption failed"

/-- The embedding of `GzipCompress.Apply` from gzip.go (stdlib compressor `gzipFn`). -/
def GzipCompress.Apply (gzipFn : Bytes → Bytes) (r : Bytes) : Except String Bytes :=
  .ok (gzipFn r)

/-- The embedding of `GzipDecompress.Apply` from gzip.go: a malformed stream makes the
stdlib reader fail, surfaced as a typed error. -/
def GzipDecompress.Apply (gunzipFn : Bytes → Option Bytes) (r : Bytes) :
    Except String Bytes :=
  match gunzipFn r with
  | some out => .ok out
  | none => .error "gzip: invalid stream"

/-- A pipeline step, as the byte-level function it applies. -/
abbrev TransformStep := Bytes → Except String Bytes

/-- The embedding of `WritePipeline.Apply` from transform.go: thread the stream through
the steps in order, stopping at the first failure. -/
def WritePipeline.Apply (steps : List TransformStep) (reader : Bytes) :
    Except String Bytes :=
  steps.foldlM (fun cur s => s cur) reader

/-- The embedding of `ReadPipeline.Apply` from transform.go. -/
def ReadPipeline.Apply (steps : List TransformStep) (readerCloser : Bytes) :
    Except String Bytes :=
  steps.foldlM (fun cur s => s cur) readerCloser

/-- The embedding of `Factory.BuildWPipelineCompressEncrypt` from transform.go:
compression step first, then encryption; a configuration requesting
AES-256 with an empty key fails at build time. -/
def BuildWPipelineCompressEncrypt (gzipFn : Bytes → Bytes)
    (aeadOf : Bytes → AEAD) (shaFn : String → Bytes) (nonce : Bytes)
    (props : ConnectionProperties) (encryptionKey : String) :
    Except String (List TransformStep) :=
  let steps : List TransformStep :=
    match props.SaveCompress with
    | .NO_COMPRESSION => []
    | .GZIP_COMPRESSION => [GzipCompress.Apply gzipFn]
  match props.SaveEncrypt with
  | .NO_ENCRYPTION => .ok steps
  | .AES256_ENCRYPTION =>
    if encryptionKey = "" then
      .error "missing encryption key for AES256_ENCRYPTION"
    else
      .ok (steps ++ [AESGCMEncrypt.Apply aeadOf shaFn ⟨encryptionKey⟩ nonce])

/-- The embedding of `Factory.BuildRPipelineDecryptDecompress` from transform.go:
decryption step first, then decompression. -/
def BuildRPipelineDecryptDecompress (gunzipFn : Bytes → Option Bytes)
    (aeadOf : Bytes → AEAD) (shaFn : String → Bytes)
    (props : ConnectionProperties) (decryptionKey : String) :
    Except String (List TransformStep) :=
  let compSteps : List TransformStep :=
    match props.SaveCompress with
    | .NO_COMPRESSION => []
    | .GZIP_COMPRESSION => [GzipDecompress.Apply gunzipFn]
  match props.SaveEncrypt with
  | .NO_ENCRYPTION => .ok compSteps
  | .AES256_ENCRYPTION =>
    if decryptionKey = "" then
      .error "missing decryption key for AES256_ENCRYPTION"
    else
      .ok ([AESGCMDecrypt.Apply aeadOf shaFn ⟨decryptionKey⟩] ++ compSteps)

/-! Shared lemmas -/

theorem lookupKey_eraseKey_ne (m : CacheMap) (k k2 : String) (h : k2 ≠ k) :
    lookupKey (eraseKey m k) k2 = lookupKey m k2 := by
  induction m with
  | nil => rfl
  | cons e rest ih =>
    by_cases he : e.1 = k
    · simp only [eraseKey, if_pos he, lookupKey]
      rw [if_neg (by rw [he]; exact fun hh => h hh.symm)]
    · simp only [eraseKey, if_neg he, lookupKey]
      by_cases he2 : e.1 = k2
      · simp [he2]
      · simp only [if_neg he2, ih]

theorem lookupKey_eq_none_iff (m : CacheMap) (k : String) :
    lookupKey m k = none ↔ ∀ fi, (k, fi) ∉ m := by
  induction m with
  | nil => simp [lookupKey]
  | cons e rest ih =>
    by_cases he : e.1 = k
    · simp only [lookupKey, if_pos he]
      constructor
      · intro h; cases h
      · intro h
        exact absurd (show (k, e.2) ∈ e :: rest by rw [← he]; exact List.mem_cons_self e rest) (h e.2)
    · simp only [lookupKey, if_neg he, ih, List.mem_cons]
      constructor
      · intro h fi hmem
        rcases hmem with hmem | hmem
        · exact he (congrArg Prod.fst hmem.symm)
        · exact h fi hmem
      · intro h fi hmem
        exact h fi (Or.inr hmem)

theorem lookupKey_isSome_of_mem (m : CacheMap) (k : String) (fi : FileInformation)
    (h : (k, fi) ∈ m) : lookupKey m k ≠ none := by
  intro hn
  exact (lookupKey_eq_none_iff m k).mp hn fi h

theorem lookupKey_eraseKey_self (m : CacheMap) (k : String)
    (hNodup : (m.map Prod.fst).Nodup) : lookupKey (eraseKey m k) k = none := by
  induction m with
  | nil => rfl
  | cons e rest ih =>
    simp only [List.map_cons, List.nodup_cons] at hNodup
    by_cases he : e.1 = k
    · simp only [eraseKey, if_pos he]
      rw [lookupKey_eq_none_iff]
      intro fi hmem
      exact hNodup.1 (by rw [he]; exact List.mem_map_of_mem Prod.fst hmem)
    · simp only [eraseKey, if_neg he, lookupKey, if_neg he]
      exact ih hNodup.2

theorem eraseKey_length_of_mem (m : CacheMap) (k : String) (fi : FileInformation)
    (h : (k, fi) ∈ m) : (eraseKey m k).length + 1 = m.length := by
  induction m with
  | nil => cases h
  | cons e rest ih =>
    by_cases he : e.1 = k
    · simp [eraseKey, if_pos he]
    · rcases List.mem_cons.mp h with hh | hh
      · exact absurd (congrArg Prod.fst hh.symm) he
      · simp only [eraseKey, if_neg he, List.length_cons]
        rw [← ih hh]

theorem eraseKey_append_of_mem (m l : CacheMap) (k : String) (fi : FileInformation)
    (h : (k, fi) ∈ m) : eraseKey (m ++ l) k = eraseKey m k ++ l := by
  induction m with
  | nil => cases h
  | cons e rest ih =>
    by_cases he : e.1 = k
    · simp [eraseKey, if_pos he]
    · rcases List.mem_cons.mp h with hh | hh
      · exact absurd (congrArg Prod.fst hh.symm) he
      · simp only [List.cons_append, eraseKey, if_neg he]
        rw [show rest.append l = rest ++ l from rfl, ih hh]

theorem lookupKey_append_right (m l : CacheMap) (k : String)
    (h : lookupKey m k = none) : lookupKey (m ++ l) k = lookupKey l k := by
  induction m with
  | nil => rfl
  | cons e rest ih =>
    by_cases he : e.1 = k
    · simp [lookupKey, if_pos he] at h
    · simp only [lookupKey, if_neg he] at h
      simp only [List.cons_append, lookupKey, if_neg he]
      exact ih h

/-! C9 -/

/-- C9: for every input shorter than the AEAD nonce length, decryption
returns the typed "too short" error; the nonce/ciphertext split is
never reached (the model's result is the guard's error, and `take` /
`drop` — total here — stand for the slicing the guard protects). -/
theorem C9_decrypt_short_input (aeadOf : Bytes → AEAD) (shaFn : String → Bytes)
    (Key : String) (input : Bytes) (hk : ¬ Key = "")
    (hlen : input.length < (aeadOf (shaFn Key)).nonceSize) :
    AESGCMDecrypt.Apply aeadOf shaFn ⟨Key⟩ input
      = .error "aesgcm: invalid ciphertext (too short)" := by
  simp only [AESGCMDecrypt.Apply, if_neg hk, if_pos hlen]

theorem C9_decrypt_short_input_witness :
    AESGCMDecrypt.Apply (fun _ => ⟨12, fun _ p => p, fun _ c => some c⟩)
      (fun _ => List.replicate 32 0) ⟨"secret"⟩ [1, 2, 3]
      = .error "aesgcm: invalid ciphertext (too short)" :=
  C9_decrypt_short_input (fun _ => ⟨12, fun _ p => p, fun _ c => some c⟩)
    (fun _ => List.replicate 32 0) "secret" [1, 2, 3] (by decide) (by decide)

/-! C8 -/

theorem writeApply_nil (p : Bytes) : WritePipeline.Apply [] p = .ok p := rfl

theorem writeApply_cons (s : TransformStep) (steps : List TransformStep) (p : Bytes) :
    WritePipeline.Apply (s :: steps) p
      = match s p with
        | .ok x => WritePipeline.Apply steps x
        | .error e => .error e := by
  simp only [WritePipeline.Apply, List.foldlM]
  cases s p <;> rfl

theorem readApply_nil (p : Bytes) : ReadPipeline.Apply [] p = .ok p := rfl

theorem readApply_cons (s : TransformStep) (steps : List TransformStep) (p : Bytes) :
    ReadPipeline.Apply (s :: steps) p
      = match s p with
        | .ok x => ReadPipeline.Apply steps x
        | .error e => .error e := by
  simp only [ReadPipeline.Apply, List.foldlM]
  cases s p <;> rfl

/-- C8: with the stdlib contracts assumed of the external primitives
(`Open` inverts `Seal` at equal key and nonce; gzip decompression
inverts compression), the transform layer round-trips every payload:
decrypting an encryption under the same passphrase returns the original
bytes, the encryption output is the nonce prepended to the AEAD output
for the key `shaFn Key` (the SHA-256 digest of the passphrase — the
AEAD family is consulted only at the digest, never at the literal
passphrase), gzip round-trips, and for every property combination the
composed write pipeline followed by the read pipeline is the
identity. -/
theorem C8_transform_roundtrip (aeadOf : Bytes → AEAD) (shaFn : String → Bytes)
    (gzipFn : Bytes → Bytes) (gunzipFn : Bytes → Option Bytes)
    (hAead : ∀ key nonce p, (aeadOf key).Open nonce ((aeadOf key).Seal nonce p) = some p)
    (hGz : ∀ p, gunzipFn (gzipFn p) = some p)
    (Key : String) (hk : ¬ Key = "") (nonce : Bytes)
    (hn : nonce.length = (aeadOf (shaFn Key)).nonceSize) :
    (∀ p out, AESGCMEncrypt.Apply aeadOf shaFn ⟨Key⟩ nonce p = .ok out →
      AESGCMDecrypt.Apply aeadOf shaFn ⟨Key⟩ out = .ok p)
    ∧ (∀ p out, AESGCMEncrypt.Apply aeadOf shaFn ⟨Key⟩ nonce p = .ok out →
      out = nonce ++ (aeadOf (shaFn Key)).Seal nonce p)
    ∧ (∀ p out, GzipCompress.Apply gzipFn p = .ok out →
      GzipDecompress.Apply gunzipFn out = .ok p)
    ∧ (∀ (props : ConnectionProperties) (p : Bytes) wsteps rsteps wout,
      BuildWPipelineCompressEncrypt gzipFn aeadOf shaFn nonce props Key = .ok wsteps →
      BuildRPipelineDecryptDecompress gunzipFn aeadOf shaFn props Key = .ok rsteps →
      WritePipeline.Apply wsteps p = .ok wout →
      ReadPipeline.Apply rsteps wout = .ok p) := by
  have hlen : ∀ p : Bytes, (nonce ++ (aeadOf (shaFn Key)).Seal nonce p).length
      = (aeadOf (shaFn Key)).nonceSize + ((aeadOf (shaFn Key)).Seal nonce p).length := by
    intro p; rw [List.length_append, hn]
  have hdec : ∀ p : Bytes,
      AESGCMDecrypt.Apply aeadOf shaFn ⟨Key⟩ (nonce ++ (aeadOf (shaFn Key)).Seal nonce p)
        = .ok p := by
    intro p
    have hnotshort : ¬ (nonce ++ (aeadOf (shaFn Key)).Seal nonce p).length
        < (aeadOf (shaFn Key)).nonceSize := by
      rw [hlen p]; omega
    simp only [AESGCMDecrypt.Apply, if_neg hk, if_neg hnotshort]
    rw [← hn, List.take_left, List.drop_left, hAead]
  have henc : ∀ p out, AESGCMEncrypt.Apply aeadOf shaFn ⟨Key⟩ nonce p = .ok out →
      out = nonce ++ (aeadOf (shaFn Key)).Seal nonce p := by
    intro p out h
    simpa only [AESGCMEncrypt.Apply, if_neg hk, Except.ok.injEq, eq_comm] using h
  refine ⟨?_, henc, ?_, ?_⟩
  · intro p out h
    rw [henc p out h]
    exact hdec p
  · intro p out h
    simp only [GzipCompress.Apply, Except.ok.injEq] at h
    simp only [GzipDecompress.Apply, ← h, hGz]
  · intro props p wsteps rsteps wout hw hr hwapp
    have hencEval : ∀ q : Bytes, AESGCMEncrypt.Apply aeadOf shaFn ⟨Key⟩ nonce q
        = .ok (nonce ++ (aeadOf (shaFn Key)).Seal nonce q) := by
      intro q; simp only [AESGCMEncrypt.Apply, if_neg hk]
    have hgzEval : ∀ q : Bytes, GzipCompress.Apply gzipFn q = .ok (gzipFn q) := by
      intro q; rfl
    have hguEval : ∀ q : Bytes, GzipDecompress.Apply gunzipFn (gzipFn q) = .ok q := by
      intro q; simp only [GzipDecompress.Apply, hGz]
    cases hc : props.SaveCompress <;> cases he : props.SaveEncrypt <;>
      simp only [BuildWPipelineCompressEncrypt, BuildRPipelineDecryptDecompress,
        hc, he, if_neg hk, Except.ok.injEq, List.nil_append, List.singleton_append] at hw hr <;>
      subst hw <;> subst hr
    · rw [writeApply_nil, Except.ok.injEq] at hwapp
      rw [readApply_nil, hwapp]
    · simp only [writeApply_cons, hencEval, writeApply_nil, Except.ok.injEq] at hwapp
      simp only [readApply_cons, ← hwapp, hdec, readApply_nil]
    · simp only [writeApply_cons, hgzEval, writeApply_nil, Except.ok.injEq] at hwapp
      simp only [readApply_cons, ← hwapp, hguEval, readApply_nil]
    · simp only [writeApply_cons, hgzEval, hencEval, writeApply_nil,
        Except.ok.injEq] at hwapp
      simp only [readApply_cons, ← hwapp, hdec, hguEval, readApply_nil]

theorem C8_transform_roundtrip_witness :
    AESGCMDecrypt.Apply (fun _ => ⟨2, fun _ p => p, fun _ c => some c⟩)
      (fun _ => List.replicate 32 1) ⟨"pw"⟩ [7, 7, 3, 4] = .ok [3, 4]
    ∧ ReadPipeline.Apply
        [AESGCMDecrypt.Apply (fun _ => ⟨2, fun _ p => p, fun _ c => some c⟩)
            (fun _ => List.replicate 32 1) ⟨"pw"⟩,
          GzipDecompress.Apply (fun b => some b)]
        [7, 7, 3, 4] = .ok [3, 4] := by
  have h := C8_transform_roundtrip (fun _ => ⟨2, fun _ p => p, fun _ c => some c⟩)
    (fun _ => List.replicate 32 1) (fun b => b) (fun b => some b)
    (fun _ _ _ => rfl) (fun _ => rfl) "pw" (by decide) [7, 7] rfl
  refine ⟨h.1 [3, 4] [7, 7, 3, 4] rfl, ?_⟩
  exact h.2.2.2 ⟨true, .AES256_ENCRYPTION, .GZIP_COMPRESSION⟩ [3, 4] _ _ [7, 7, 3, 4]
    rfl rfl rfl

/-! C1 -/

theorem syncErrs_length (mains : List Storage) :
    (syncErrs mains).length = (mains.filter (fun s => s.putErr.isSome)).length := by
  induction mains with
  | nil => rfl
  | cons s rest ih =>
    cases h : s.putErr <;>
      simp [syncErrs, List.filterMap_cons, List.filter_cons, h] <;>
      simpa [syncErrs] using ih

theorem syncErrs_eq_nil_iff (mains : List Storage) :
    syncErrs mains = [] ↔ ∀ s ∈ mains, s.putErr = none := by
  simp [syncErrs, List.filterMap_eq_nil_iff, Option.map_eq_none']

/-- C1: in Sync mode with at least one main backend, a write is
attempted on every main backend and the result is tri-state: `nil`
exactly when every main write succeeds; an all-failed error naming `N`
when all fail; and, when `0 < k < N` fail, an error whose text contains
`partially failed on k/N` wrapping the per-backend errors. -/
theorem C1_sync_put_tristate (storages : List Storage) (cacheEnabled : Bool)
    (cache : CacheMap) (storeBox fileName : String)
    (mains : List Storage) (k n : Nat) (r : PutOutcome)
    (hm : mains = mainsOf storages)
    (hk : k = (mains.filter (fun s => s.putErr.isSome)).length)
    (hn : n = mains.length)
    (hr : r = putObject .SYNC_REPLICATION storages cacheEnabled cache storeBox fileName)
    (hN : 1 ≤ n) :
    r.attempted = mains
    ∧ (r.err = none ↔ ∀ s ∈ mains, s.putErr = none)
    ∧ (k = n →
        r.err = some ("[sync] PutObject failed on all " ++ Nat.repr n
          ++ " storages: " ++ joinErrs (syncErrs mains)))
    ∧ (0 < k → k < n →
        ∃ pre post, r.err = some (pre
          ++ ("partially failed on " ++ Nat.repr k ++ "/" ++ Nat.repr n)
          ++ post)) := by
  subst hm hk hn hr
  have hne : ¬ (mainsOf storages).length = 0 := by omega
  have hkE : (syncErrs (mainsOf storages)).length
      = ((mainsOf storages).filter (fun s => s.putErr.isSome)).length :=
    syncErrs_length _
  have hnotall : ¬ (syncErrs (mainsOf storages)).length = 0 →
      ¬ ∀ s ∈ mainsOf storages, s.putErr = none := by
    intro h0 hall
    exact h0 (by rw [(syncErrs_eq_nil_iff _).mpr hall]; rfl)
  by_cases h0 : (syncErrs (mainsOf storages)).length = 0
  · have hall : ∀ s ∈ mainsOf storages, s.putErr = none :=
      (syncErrs_eq_nil_iff _).mp (List.length_eq_zero.mp h0)
    have hval : putObject .SYNC_REPLICATION storages cacheEnabled cache storeBox fileName
        = ⟨none, mainsOf storages, [],
            if cacheEnabled then FileCache.Invalidate cache (storeBox ++ "/" ++ fileName)
            else cache⟩ := by
      simp [putObject, hne, h0]
    rw [hval]
    refine ⟨rfl, by simpa using hall, ?_, ?_⟩
    · intro hkn
      omega
    · intro hpos
      omega
  · by_cases h1 : (syncErrs (mainsOf storages)).length = (mainsOf storages).length
    · have hval : putObject .SYNC_REPLICATION storages cacheEnabled cache storeBox fileName
          = ⟨some ("[sync] PutObject failed on all " ++ Nat.repr (mainsOf storages).length
              ++ " storages: " ++ joinErrs (syncErrs (mainsOf storages))),
              mainsOf storages, [], cache⟩ := by
        simp [putObject, hne, h0, h1]
      rw [hval]
      refine ⟨rfl, by simpa using hnotall h0, ?_, ?_⟩
      · intro hkn
        rfl
      · intro hpos hlt
        omega
    · have hval : putObject .SYNC_REPLICATION storages cacheEnabled cache storeBox fileName
          = ⟨some ("[sync] PutObject "
              ++ ("partially failed on " ++ Nat.repr (syncErrs (mainsOf storages)).length
                ++ "/" ++ Nat.repr (mainsOf storages).length)
              ++ (" storages: " ++ joinErrs (syncErrs (mainsOf storages)))),
              mainsOf storages, [], cache⟩ := by
        simp [putObject, hne, h0, h1]
      rw [hval]
      refine ⟨rfl, by simpa using hnotall h0, ?_, ?_⟩
      · intro hkn
        omega
      · intro hpos hlt
        refine ⟨"[sync] PutObject ", " storages: " ++ joinErrs (syncErrs (mainsOf storages)), ?_⟩
        rw [← hkE]

theorem C1_sync_put_tristate_witness :
    (0 : Nat) < 1
    ∧ (∃ pre post,
        (putObject .SYNC_REPLICATION
          [⟨"*m.A", ⟨true, .NO_ENCRYPTION, .NO_COMPRESSION⟩, none, none⟩,
            ⟨"*m.B", ⟨true, .NO_ENCRYPTION, .NO_COMPRESSION⟩, some "boom", none⟩,
            ⟨"*m.C", ⟨true, .NO_ENCRYPTION, .NO_COMPRESSION⟩, none, none⟩]
          false [] "docs" "report.pdf").err
        = some (pre ++ ("partially failed on " ++ Nat.repr 1 ++ "/" ++ Nat.repr 3) ++ post)) :=
  ⟨by decide,
    (C1_sync_put_tristate _ false [] "docs" "report.pdf" _ 1 3 _ rfl (by decide) (by decide)
      rfl (by decide)).2.2.2 (by decide) (by decide)⟩

/-! C3 -/

theorem asyncTry_all_fail (l : List Storage) (h : ∀ s ∈ l, ¬ s.putErr = none) :
    asyncTry l = none := by
  induction l with
  | nil => rfl
  | cons s rest ih =>
    simp only [asyncTry, if_neg (h s (List.mem_cons_self s rest))]
    rw [ih (fun t ht => h t (List.mem_cons_of_mem s ht))]
    rfl

theorem asyncTry_split (l1 : List Storage) (s : Storage) (l2 : List Storage)
    (h1 : ∀ t ∈ l1, ¬ t.putErr = none) (hs : s.putErr = none) :
    asyncTry (l1 ++ s :: l2) = some (l1 ++ l2) := by
  induction l1 with
  | nil => simp [asyncTry, hs]
  | cons t rest ih =>
    simp only [List.cons_append, asyncTry, if_neg (h1 t (List.mem_cons_self t rest))]
    rw [show rest.append (s :: l2) = rest ++ s :: l2 from rfl,
      ih (fun u hu => h1 u (List.mem_cons_of_mem t hu))]
    rfl

theorem asyncAttempted_all_fail (l : List Storage) (h : ∀ s ∈ l, ¬ s.putErr = none) :
    asyncAttempted l = l := by
  induction l with
  | nil => rfl
  | cons s rest ih =>
    simp only [asyncAttempted, if_neg (h s (List.mem_cons_self s rest))]
    rw [ih (fun t ht => h t (List.mem_cons_of_mem s ht))]

theorem asyncAttempted_split (l1 : List Storage) (s : Storage) (l2 : List Storage)
    (h1 : ∀ t ∈ l1, ¬ t.putErr = none) (hs : s.putErr = none) :
    asyncAttempted (l1 ++ s :: l2) = l1 ++ [s] := by
  induction l1 with
  | nil => simp [asyncAttempted, hs]
  | cons t rest ih =>
    simp only [List.cons_append, asyncAttempted, if_neg (h1 t (List.mem_cons_self t rest))]
    rw [show rest.append (s :: l2) = rest ++ s :: l2 from rfl,
      ih (fun u hu => h1 u (List.mem_cons_of_mem t hu))]

/-- C3: in Async mode, main backends are attempted synchronously in
list order up to and including the first success; that call returns
success with the other main backends (and only those) handed to
detached background work; and when every synchronous attempt fails the
call returns the aggregate failure and launches no background work. -/
theorem C3_async_first_success (storages : List Storage) (cacheEnabled : Bool)
    (cache : CacheMap) (storeBox fileName : String) (r : PutOutcome)
    (hr : r = putObject .ASYNC_REPLICATION storages cacheEnabled cache storeBox fileName)
    (hne : ¬ mainsOf storages = []) :
    (∀ l1 s l2, mainsOf storages = l1 ++ s :: l2 →
      (∀ t ∈ l1, ¬ t.putErr = none) → s.putErr = none →
      r.err = none ∧ r.attempted = l1 ++ [s] ∧ r.background = l1 ++ l2)
    ∧ ((∀ t ∈ mainsOf storages, ¬ t.putErr = none) →
      r.err = some "[async] PutObject failed on all main storages"
      ∧ r.background = [] ∧ r.attempted = mainsOf storages) := by
  subst hr
  have hlen : ¬ (mainsOf storages).length = 0 := by
    intro h
    exact hne (List.length_eq_zero.mp h)
  constructor
  · intro l1 s l2 hsplit hfail hs
    have htry : asyncTry (mainsOf storages) = some (l1 ++ l2) := by
      rw [hsplit]; exact asyncTry_split l1 s l2 hfail hs
    have hatt : asyncAttempted (mainsOf storages) = l1 ++ [s] := by
      rw [hsplit]; exact asyncAttempted_split l1 s l2 hfail hs
    simp [putObject, hlen, htry, hatt]
  · intro hfail
    have htry : asyncTry (mainsOf storages) = none := asyncTry_all_fail _ hfail
    have hatt : asyncAttempted (mainsOf storages) = mainsOf storages :=
      asyncAttempted_all_fail _ hfail
    simp [putObject, hlen, htry, hatt]

theorem C3_async_first_success_witness :
    (putObject .ASYNC_REPLICATION
      [⟨"*m.A", ⟨true, .NO_ENCRYPTION, .NO_COMPRESSION⟩, some "down", none⟩,
        ⟨"*m.B", ⟨true, .NO_ENCRYPTION, .NO_COMPRESSION⟩, none, none⟩,
        ⟨"*m.C", ⟨true, .NO_ENCRYPTION, .NO_COMPRESSION⟩, none, none⟩]
      false [] "box" "f").err = none
    ∧ (putObject .ASYNC_REPLICATION
        [⟨"*m.A", ⟨true, .NO_ENCRYPTION, .NO_COMPRESSION⟩, some "down", none⟩,
          ⟨"*m.B", ⟨true, .NO_ENCRYPTION, .NO_COMPRESSION⟩, none, none⟩,
          ⟨"*m.C", ⟨true, .NO_ENCRYPTION, .NO_COMPRESSION⟩, none, none⟩]
        false [] "box" "f").attempted
      = [⟨"*m.A", ⟨true, .NO_ENCRYPTION, .NO_COMPRESSION⟩, some "down", none⟩,
          ⟨"*m.B", ⟨true, .NO_ENCRYPTION, .NO_COMPRESSION⟩, none, none⟩]
    ∧ (putObject .ASYNC_REPLICATION
        [⟨"*m.A", ⟨true, .NO_ENCRYPTION, .NO_COMPRESSION⟩, some "down", none⟩,
          ⟨"*m.B", ⟨true, .NO_ENCRYPTION, .NO_COMPRESSION⟩, none, none⟩,
          ⟨"*m.C", ⟨true, .NO_ENCRYPTION, .NO_COMPRESSION⟩, none, none⟩]
        false [] "box" "f").background
      = [⟨"*m.A", ⟨true, .NO_ENCRYPTION, .NO_COMPRESSION⟩, some "down", none⟩,
          ⟨"*m.C", ⟨true, .NO_ENCRYPTION, .NO_COMPRESSION⟩, none, none⟩] :=
  (C3_async_first_success
    [⟨"*m.A", ⟨true, .NO_ENCRYPTION, .NO_COMPRESSION⟩, some "down", none⟩,
      ⟨"*m.B", ⟨true, .NO_ENCRYPTION, .NO_COMPRESSION⟩, none, none⟩,
      ⟨"*m.C", ⟨true, .NO_ENCRYPTION, .NO_COMPRESSION⟩, none, none⟩]
    false [] "box" "f" _ rfl (by decide)).1
    [⟨"*m.A", ⟨true, .NO_ENCRYPTION, .NO_COMPRESSION⟩, some "down", none⟩]
    ⟨"*m.B", ⟨true, .NO_ENCRYPTION, .NO_COMPRESSION⟩, none, none⟩
    [⟨"*m.C", ⟨true, .NO_ENCRYPTION, .NO_COMPRESSION⟩, none, none⟩]
    rfl (by decide) rfl

/-! C2 -/

/-- C2: evaluation of `RemoveObject` at three configured storages of
which two are main (`A`, failing, and `B`, succeeding) and one a
replica (`C`): the partial-failure message reports `1/3`, the
denominator being `len(f.storages) = 3`, not the main-backend count
`N = 2` required by the claim. -/
theorem C2_remove_denominator_bug :
    (mainsOf
      [⟨"*m.A", ⟨true, .NO_ENCRYPTION, .NO_COMPRESSION⟩, none, some "boom"⟩,
        ⟨"*m.B", ⟨true, .NO_ENCRYPTION, .NO_COMPRESSION⟩, none, none⟩,
        ⟨"*m.C", ⟨false, .NO_ENCRYPTION, .NO_COMPRESSION⟩, none, none⟩]).length = 2
    ∧ (removeObject
        [⟨"*m.A", ⟨true, .NO_ENCRYPTION, .NO_COMPRESSION⟩, none, some "boom"⟩,
          ⟨"*m.B", ⟨true, .NO_ENCRYPTION, .NO_COMPRESSION⟩, none, none⟩,
          ⟨"*m.C", ⟨false, .NO_ENCRYPTION, .NO_COMPRESSION⟩, none, none⟩]
        false [] "box" "f").1
      = some ("RemoveObject " ++ ("partially failed on " ++ Nat.repr 1 ++ "/" ++ Nat.repr 3)
        ++ (" storages: RemoveObject failed on storage *m.A: boom")) := by
  constructor
  · rfl
  · rfl

/-! C10 -/

theorem putObject_cache_spec (mode : ReplicationMode) (storages : List Storage)
    (en : Bool) (cache : CacheMap) (box name : String) :
    (¬ (putObject mode storages en cache box name).err = none
      ∧ (putObject mode storages en cache box name).cache = cache)
    ∨ ((putObject mode storages en cache box name).err = none
      ∧ (putObject mode storages en cache box name).cache
        = (if en then FileCache.Invalidate cache (box ++ "/" ++ name) else cache)) := by
  by_cases h0 : (mainsOf storages).length = 0
  · left
    constructor <;> simp [putObject, h0]
  · cases mode
    · by_cases h1 : (syncErrs (mainsOf storages)).length = 0
      · right
        constructor <;> simp [putObject, h0, h1]
      · by_cases h2 : (syncErrs (mainsOf storages)).length = (mainsOf storages).length
        · left
          constructor <;> simp [putObject, h0, h1, h2]
        · left
          constructor <;> simp [putObject, h0, h1, h2]
    · cases htry : asyncTry (mainsOf storages)
      · left
        constructor <;> simp [putObject, h0, htry]
      · right
        constructor <;> simp [putObject, h0, htry]

theorem removeObject_cache_spec (storages : List Storage)
    (en : Bool) (cache : CacheMap) (box name : String) :
    (¬ (removeObject storages en cache box name).1 = none
      ∧ (removeObject storages en cache box name).2 = cache)
    ∨ ((removeObject storages en cache box name).1 = none
      ∧ (removeObject storages en cache box name).2
        = (if en then FileCache.Invalidate cache (box ++ "/" ++ name) else cache)) := by
  by_cases h0 : (mainsOf storages).length = 0
  · left
    constructor <;> simp [removeObject, h0]
  · by_cases h1 : (removeErrsOf (mainsOf storages)).length = 0
    · right
      constructor <;> simp [removeObject, h0, h1]
    · by_cases h2 : (removeErrsOf (mainsOf storages)).length = (mainsOf storages).length
      · left
        constructor <;> simp [removeObject, h0, h1, h2]
      · left
        constructor <;> simp [removeObject, h0, h1, h2]

/-- C10: a `PutObject` or `RemoveObject` call that returns an error
leaves the cache untouched — the entry for `storeBox/fileName` is not
invalidated (a value cached for that key is still found afterwards)
and no other entry is affected; and even on success the only entry
ever removed is that one key's. -/
theorem C10_cache_frame (mode : ReplicationMode) (storages : List Storage)
    (en : Bool) (cache : CacheMap) (box name : String)
    (r : PutOutcome) (rem : Option String × CacheMap)
    (hr : r = putObject mode storages en cache box name)
    (hrem : rem = removeObject storages en cache box name) :
    (∀ e, r.err = some e → r.cache = cache)
    ∧ (∀ e, rem.1 = some e → rem.2 = cache)
    ∧ (∀ k2, ¬ k2 = box ++ "/" ++ name → lookupKey r.cache k2 = lookupKey cache k2)
    ∧ (∀ k2, ¬ k2 = box ++ "/" ++ name → lookupKey rem.2 k2 = lookupKey cache k2)
    ∧ (∀ e fi, r.err = some e → lookupKey cache (box ++ "/" ++ name) = some fi →
        lookupKey r.cache (box ++ "/" ++ name) = some fi)
    ∧ (∀ e fi, rem.1 = some e → lookupKey cache (box ++ "/" ++ name) = some fi →
        lookupKey rem.2 (box ++ "/" ++ name) = some fi) := by
  subst hr hrem
  have hframe : ∀ m2 : CacheMap,
      m2 = (if en then FileCache.Invalidate cache (box ++ "/" ++ name) else cache) →
      ∀ k2, ¬ k2 = box ++ "/" ++ name → lookupKey m2 k2 = lookupKey cache k2 := by
    intro m2 hm2 k2 hk2
    subst hm2
    by_cases hen : en
    · simp only [if_pos hen, FileCache.Invalidate]
      exact lookupKey_eraseKey_ne cache _ k2 hk2
    · simp only [if_neg hen]
  refine ⟨?_, ?_, ?_, ?_, ?_, ?_⟩
  · intro e h
    rcases putObject_cache_spec mode storages en cache box name with ⟨_, hpc⟩ | ⟨hpe, _⟩
    · exact hpc
    · rw [h] at hpe
      exact (Option.some_ne_none e hpe).elim
  · intro e h
    rcases removeObject_cache_spec storages en cache box name with ⟨_, hrc⟩ | ⟨hre, _⟩
    · exact hrc
    · rw [h] at hre
      exact (Option.some_ne_none e hre).elim
  · intro k2 hk2
    rcases putObject_cache_spec mode storages en cache box name with ⟨_, hpc⟩ | ⟨_, hpc⟩
    · rw [hpc]
    · rw [hpc]
      exact hframe _ rfl k2 hk2
  · intro k2 hk2
    rcases removeObject_cache_spec storages en cache box name with ⟨_, hrc⟩ | ⟨_, hrc⟩
    · rw [hrc]
    · rw [hrc]
      exact hframe _ rfl k2 hk2
  · intro e fi h hfi
    rcases putObject_cache_spec mode storages en cache box name with ⟨_, hpc⟩ | ⟨hpe, _⟩
    · rw [hpc]
      exact hfi
    · rw [h] at hpe
      exact (Option.some_ne_none e hpe).elim
  · intro e fi h hfi
    rcases removeObject_cache_spec storages en cache box name with ⟨_, hrc⟩ | ⟨hre, _⟩
    · rw [hrc]
      exact hfi
    · rw [h] at hre
      exact (Option.some_ne_none e hre).elim

theorem C10_cache_frame_witness :
    (putObject .SYNC_REPLICATION
      [⟨"*m.A", ⟨true, .NO_ENCRYPTION, .NO_COMPRESSION⟩, none, none⟩,
        ⟨"*m.B", ⟨true, .NO_ENCRYPTION, .NO_COMPRESSION⟩, some "boom", none⟩]
      true [("b/f", ⟨[9], 0⟩)] "b" "f").cache = [("b/f", ⟨[9], 0⟩)]
    ∧ lookupKey (putObject .SYNC_REPLICATION
        [⟨"*m.A", ⟨true, .NO_ENCRYPTION, .NO_COMPRESSION⟩, none, none⟩,
          ⟨"*m.B", ⟨true, .NO_ENCRYPTION, .NO_COMPRESSION⟩, some "boom", none⟩]
        true [("b/f", ⟨[9], 0⟩)] "b" "f").cache "b/f" = some ⟨[9], 0⟩ :=
  ⟨(C10_cache_frame .SYNC_REPLICATION
      [⟨"*m.A", ⟨true, .NO_ENCRYPTION, .NO_COMPRESSION⟩, none, none⟩,
        ⟨"*m.B", ⟨true, .NO_ENCRYPTION, .NO_COMPRESSION⟩, some "boom", none⟩]
      true [("b/f", ⟨[9], 0⟩)] "b" "f" _ _ rfl rfl).1 _ rfl,
    (C10_cache_frame .SYNC_REPLICATION
      [⟨"*m.A", ⟨true, .NO_ENCRYPTION, .NO_COMPRESSION⟩, none, none⟩,
        ⟨"*m.B", ⟨true, .NO_ENCRYPTION, .NO_COMPRESSION⟩, some "boom", none⟩]
      true [("b/f", ⟨[9], 0⟩)] "b" "f" _ _ rfl rfl).2.2.2.2.1 _ ⟨[9], 0⟩ rfl rfl⟩

/-! C4 -/

theorem buildPrimary_rotation (cs : List Client) (s : Nat) (h : s < cs.length) :
    buildPrimary cs s = cs.drop s ++ cs.take s := by
  have hpos : 0 < cs.length := by omega
  have hlen : (buildPrimary cs s).length = cs.length := by simp [buildPrimary]
  have hlen2 : (cs.drop s ++ cs.take s).length = cs.length := by
    simp
    omega
  apply List.ext_getElem (by rw [hlen, hlen2])
  intro i h1 h2
  have hi : i < cs.length := by rw [hlen] at h1; exact h1
  have hbp : (buildPrimary cs s)[i] = cs.getD ((s + i) % cs.length) default := by
    simp [buildPrimary]
  rw [hbp, List.getD_eq_getElem cs default (Nat.mod_lt _ hpos)]
  by_cases hcase : i < cs.length - s
  · have hmod : (s + i) % cs.length = s + i := Nat.mod_eq_of_lt (by omega)
    have hb : s + i < cs.length := by omega
    have hidrop : i < (cs.drop s).length := by
      simp only [List.length_drop]
      omega
    have hrhs : (cs.drop s ++ cs.take s)[i] = cs[s + i] := by
      rw [List.getElem_append_left hidrop, List.getElem_drop]
    rw [hrhs]
    congr 1
  · have hge : (cs.drop s).length ≤ i := by
      simp only [List.length_drop]
      omega
    have hmod : (s + i) % cs.length = i - (cs.length - s) := by
      rw [Nat.mod_eq_sub_mod (by omega), Nat.mod_eq_of_lt (by omega)]
      omega
    have hb : i - (cs.length - s) < cs.length := by omega
    have hrhs : (cs.drop s ++ cs.take s)[i] = cs[i - (cs.length - s)] := by
      rw [List.getElem_append_right hge, List.getElem_take]
      congr 1
      simp only [List.length_drop]
    rw [hrhs]
    congr 1

theorem mem_buildPrimary (cs : List Client) (s : Nat) (h : s < cs.length) :
    ∀ x ∈ buildPrimary cs s, x ∈ cs := by
  rw [buildPrimary_rotation cs s h]
  intro x hx
  rcases List.mem_append.mp hx with hx | hx
  · exact List.mem_of_mem_drop hx
  · exact List.mem_of_mem_take hx

theorem firstSuccess_eq_none (l : List Client) (h : ∀ cl ∈ l, cl.getOk = false) :
    firstSuccess l = none := by
  induction l with
  | nil => rfl
  | cons cl rest ih =>
    simp only [firstSuccess, h cl (List.mem_cons_self cl rest), if_neg Bool.false_ne_true]
    exact ih (fun x hx => h x (List.mem_cons_of_mem cl hx))

/-- C4: each round-robin `Apply` call computes `start = cursor mod
groupSize`, advances the cursor by one (mod the primary group size),
attempts the primary group's clients as the rotation of the group
starting at `start` — wrapping exactly once, `groupSize` attempts in
all — serving the first success, and on total failure of the primary
group falls back to the remaining groups in classic order; over 3
always-succeeding replica backends, 6 sequential calls visit the
backends in cyclic order `[0,1,2,0,1,2]` from the rotation start. -/
theorem C4_round_robin (g0 : ClientGroup) (rest : List ClientGroup) (c n : Nat)
    (hn : n = g0.Clients.length) (hpos : 0 < n) :
    (roundRobinApply (g0 :: rest) c).2 = (c % n + 1) % n
    ∧ buildPrimary g0.Clients (c % n)
      = g0.Clients.drop (c % n) ++ g0.Clients.take (c % n)
    ∧ (buildPrimary g0.Clients (c % n)).length = n
    ∧ (∀ cl, firstSuccess (buildPrimary g0.Clients (c % n)) = some cl →
        (roundRobinApply (g0 :: rest) c).1 = some cl)
    ∧ ((∀ cl ∈ g0.Clients, cl.getOk = false) →
        (roundRobinApply (g0 :: rest) c).1 = classicApply rest)
    ∧ rrRun 6 [⟨[⟨0, true⟩, ⟨1, true⟩, ⟨2, true⟩]⟩] 0
      = [some ⟨0, true⟩, some ⟨1, true⟩, some ⟨2, true⟩,
          some ⟨0, true⟩, some ⟨1, true⟩, some ⟨2, true⟩] := by
  subst hn
  have hpos' : 0 < g0.Clients.length := hpos
  have hmodlt : c % g0.Clients.length < g0.Clients.length := Nat.mod_lt _ hpos'
  refine ⟨?_, buildPrimary_rotation _ _ hmodlt, by simp [buildPrimary], ?_, ?_, by decide⟩
  · cases hfs : firstSuccess (buildPrimary g0.Clients (c % g0.Clients.length)) <;>
      simp [roundRobinApply, hpos', hfs]
  · intro cl hcl
    simp [roundRobinApply, hpos', hcl]
  · intro hall
    have hfs : firstSuccess (buildPrimary g0.Clients (c % g0.Clients.length)) = none :=
      firstSuccess_eq_none _ (fun x hx => hall x (mem_buildPrimary _ _ hmodlt x hx))
    simp [roundRobinApply, hpos', hfs, classicApply]

theorem C4_round_robin_witness :
    (roundRobinApply [⟨[⟨0, true⟩, ⟨1, false⟩]⟩] 5).2 = (5 % 2 + 1) % 2
    ∧ rrRun 6 [⟨[⟨0, true⟩, ⟨1, true⟩, ⟨2, true⟩]⟩] 0
      = [some ⟨0, true⟩, some ⟨1, true⟩, some ⟨2, true⟩,
          some ⟨0, true⟩, some ⟨1, true⟩, some ⟨2, true⟩] :=
  ⟨(C4_round_robin ⟨[⟨0, true⟩, ⟨1, false⟩]⟩ [] 5 2 rfl (by decide)).1,
    (C4_round_robin ⟨[⟨0, true⟩, ⟨1, false⟩]⟩ [] 5 2 rfl (by decide)).2.2.2.2.2⟩

/-! C5 and C6: cache lemmas -/

theorem lookupKey_updateKey_self (m : CacheMap) (k : String) (d : Bytes) (now : Nat)
    (fi : FileInformation) (h : lookupKey m k = some fi) :
    lookupKey (updateKey m k d now) k = some ⟨d, now⟩ := by
  induction m with
  | nil => cases h
  | cons e rest ih =>
    by_cases he : e.1 = k
    · simp [updateKey, he, lookupKey]
    · simp only [lookupKey, if_neg he] at h
      simp only [updateKey, if_neg he, lookupKey, if_neg he]
      exact ih h

theorem lookupKey_updateKey_ne (m : CacheMap) (k k2 : String) (d : Bytes) (now : Nat)
    (h : ¬ k2 = k) : lookupKey (updateKey m k d now) k2 = lookupKey m k2 := by
  induction m with
  | nil => rfl
  | cons e rest ih =>
    by_cases he : e.1 = k
    · simp only [updateKey, if_pos he, lookupKey]
      rw [if_neg (fun hh => h hh.symm), if_neg (by rw [he]; exact fun hh => h hh.symm)]
    · simp only [updateKey, if_neg he, lookupKey]
      by_cases he2 : e.1 = k2
      · simp [he2]
      · simp only [if_neg he2, ih]

theorem length_updateKey (m : CacheMap) (k : String) (d : Bytes) (now : Nat) :
    (updateKey m k d now).length = m.length := by
  induction m with
  | nil => rfl
  | cons e rest ih =>
    by_cases he : e.1 = k <;> simp [updateKey, he, ih]

theorem findOldestAux_spec (m : CacheMap) (best : String) (bestT : Nat) :
    (findOldestAux m best bestT).2 ≤ bestT
    ∧ (∀ e ∈ m, (findOldestAux m best bestT).2 ≤ e.2.createAt)
    ∧ (findOldestAux m best bestT = (best, bestT)
      ∨ ∃ fi, ((findOldestAux m best bestT).1, fi) ∈ m
          ∧ fi.createAt = (findOldestAux m best bestT).2
          ∧ (findOldestAux m best bestT).2 < bestT) := by
  induction m generalizing best bestT with
  | nil => exact ⟨le_refl _, by simp, Or.inl rfl⟩
  | cons e rest ih =>
    by_cases hlt : e.2.createAt < bestT
    · simp only [findOldestAux, if_pos hlt]
      obtain ⟨ih1, ih2, ih3⟩ := ih e.1 e.2.createAt
      refine ⟨by omega, ?_, ?_⟩
      · intro x hx
        rcases List.mem_cons.mp hx with hx | hx
        · rw [hx]
          exact ih1
        · exact ih2 x hx
      · right
        rcases ih3 with h | ⟨fi, hmem, hca, hlt2⟩
        · refine ⟨e.2, ?_, ?_, ?_⟩
          · rw [h]
            exact List.mem_cons_self e rest
          · rw [h]
          · rw [h]
            exact hlt
        · exact ⟨fi, List.mem_cons_of_mem e hmem, hca, by omega⟩
    · simp only [findOldestAux, if_neg hlt]
      obtain ⟨ih1, ih2, ih3⟩ := ih best bestT
      refine ⟨ih1, ?_, ?_⟩
      · intro x hx
        rcases List.mem_cons.mp hx with hx | hx
        · rw [hx]
          omega
        · exact ih2 x hx
      · rcases ih3 with h | ⟨fi, hmem, hca, h2⟩
        · exact Or.inl h
        · exact Or.inr ⟨fi, List.mem_cons_of_mem e hmem, hca, h2⟩

theorem findOldest_spec_of_candidate (m : CacheMap) (now : Nat)
    (hc : ∃ e ∈ m, e.2.createAt < now) :
    ∃ fiOld, (findOldest m now, fiOld) ∈ m
      ∧ (∀ e ∈ m, fiOld.createAt ≤ e.2.createAt)
      ∧ fiOld.createAt < now := by
  obtain ⟨e0, he0, hlt⟩ := hc
  obtain ⟨h1, h2, h3⟩ := findOldestAux_spec m "" now
  have hr2 : (findOldestAux m "" now).2 < now := lt_of_le_of_lt (h2 e0 he0) hlt
  rcases h3 with h | ⟨fi, hmem, hca, _⟩
  · rw [h] at hr2
    exact absurd hr2 (lt_irrefl now)
  · refine ⟨fi, hmem, ?_, ?_⟩
    · intro e he
      rw [hca]
      exact h2 e he
    · rw [hca]
      exact hr2

theorem store_new_key (opts : CacheOptions) (m : CacheMap) (k : String)
    (data : Bytes) (now : Nat)
    (hEn : opts.Enabled = true)
    (hSize : ¬ data.length > opts.MaxSizeMB * 1024 * 1024)
    (hNone : lookupKey m k = none) :
    FileCache.Store opts m k data now
      = (if (m ++ [(k, (⟨data, now⟩ : FileInformation))]).length > opts.MaxItems
          then eraseKey (m ++ [(k, (⟨data, now⟩ : FileInformation))]) (findOldest (m ++ [(k, (⟨data, now⟩ : FileInformation))]) now)
          else m ++ [(k, (⟨data, now⟩ : FileInformation))]) := by
  simp [FileCache.Store, hEn, hSize, hNone]

theorem store_evicted_mem (m : CacheMap) (k : String) (data : Bytes) (now : Nat)
    (hFresh : ∀ e ∈ m, e.2.createAt < now) (hne : ¬ m = [])
    (hNone : lookupKey m k = none) :
    ∃ fiOld, (findOldest (m ++ [(k, (⟨data, now⟩ : FileInformation))]) now, fiOld) ∈ m
      ∧ (∀ e ∈ m, fiOld.createAt ≤ e.2.createAt)
      ∧ fiOld.createAt < now
      ∧ ¬ k = findOldest (m ++ [(k, (⟨data, now⟩ : FileInformation))]) now := by
  obtain ⟨e0, he0⟩ := List.exists_mem_of_ne_nil m hne
  have hc : ∃ e ∈ m ++ [(k, (⟨data, now⟩ : FileInformation))], e.2.createAt < now :=
    ⟨e0, List.mem_append_left _ he0, hFresh e0 he0⟩
  obtain ⟨fiOld, hmem, hmin, hlt⟩ := findOldest_spec_of_candidate _ now hc
  have hmemm : (findOldest (m ++ [(k, (⟨data, now⟩ : FileInformation))]) now, fiOld) ∈ m := by
    rcases List.mem_append.mp hmem with h | h
    · exact h
    · exfalso
      simp only [List.mem_singleton, Prod.mk.injEq] at h
      rw [h.2] at hlt
      exact absurd hlt (lt_irrefl now)
  refine ⟨fiOld, hmemm, ?_, hlt, ?_⟩
  · intro e he
    exact hmin e (List.mem_append_left _ he)
  · intro he
    exact (lookupKey_eq_none_iff m k).mp hNone fiOld (by rw [he]; exact hmemm)

theorem store_lookup_self (opts : CacheOptions) (m : CacheMap) (k : String)
    (data : Bytes) (now : Nat)
    (hEn : opts.Enabled = true)
    (hItems : 1 ≤ opts.MaxItems)
    (hSize : ¬ data.length > opts.MaxSizeMB * 1024 * 1024)
    (hFresh : ∀ e ∈ m, e.2.createAt < now) :
    lookupKey (FileCache.Store opts m k data now) k = some (⟨data, now⟩ : FileInformation) := by
  cases hlk : lookupKey m k with
  | some fi =>
    have hst : FileCache.Store opts m k data now = updateKey m k data now := by
      simp [FileCache.Store, hEn, hSize, hlk]
    rw [hst]
    exact lookupKey_updateKey_self m k data now fi hlk
  | none =>
    have hm2 : lookupKey (m ++ [(k, (⟨data, now⟩ : FileInformation))]) k = some (⟨data, now⟩ : FileInformation) := by
      rw [lookupKey_append_right m _ k hlk]
      simp [lookupKey]
    rw [store_new_key opts m k data now hEn hSize hlk]
    by_cases hlen : (m ++ [(k, (⟨data, now⟩ : FileInformation))]).length > opts.MaxItems
    · have hmne : ¬ m = [] := by
        intro h
        subst h
        simp at hlen
        omega
      obtain ⟨fiOld, hmemm, _, _, hkne⟩ := store_evicted_mem m k data now hFresh hmne hlk
      rw [if_pos hlen, lookupKey_eraseKey_ne _ _ _ hkne, hm2]
    · rw [if_neg hlen, hm2]

/-- C5: for an enabled cache (storable payload), `Store(k, data)`
followed by `GetFile(k)` within the TTL returns `data` unchanged; an
entry whose age exceeds the TTL is lazily deleted and reported as a
miss (and is gone afterwards); a disabled cache always misses. -/
theorem C5_cache_lookup (opts : CacheOptions) (m : CacheMap) (k : String)
    (data : Bytes) (now now2 : Nat)
    (hEn : opts.Enabled = true)
    (hItems : 1 ≤ opts.MaxItems)
    (hSize : ¬ data.length > opts.MaxSizeMB * 1024 * 1024)
    (hFresh : ∀ e ∈ m, e.2.createAt < now)
    (hNodup : (m.map Prod.fst).Nodup) :
    (¬ now + opts.TTL < now2 →
      (FileCache.GetFile opts (FileCache.Store opts m k data now) k now2).1 = some data)
    ∧ (∀ fi, lookupKey m k = some fi → fi.createAt + opts.TTL < now2 →
        FileCache.GetFile opts m k now2 = (none, eraseKey m k)
        ∧ lookupKey (eraseKey m k) k = none)
    ∧ (∀ (opts2 : CacheOptions) (m2 : CacheMap) (k2 : String) (t : Nat),
        opts2.Enabled = false → FileCache.GetFile opts2 m2 k2 t = (none, m2)) := by
  refine ⟨?_, ?_, ?_⟩
  · intro hvalid
    have hlook := store_lookup_self opts m k data now hEn hItems hSize hFresh
    simp [FileCache.GetFile, hEn, hlook, hvalid]
  · intro fi hfi hexp
    constructor
    · simp [FileCache.GetFile, hEn, hfi, hexp]
    · exact lookupKey_eraseKey_self m k hNodup
  · intro opts2 m2 k2 t h
    simp [FileCache.GetFile, h]

theorem C5_cache_lookup_witness :
    (FileCache.GetFile ⟨true, 1, 10, 2⟩
      (FileCache.Store ⟨true, 1, 10, 2⟩ [] "k" [1, 2] 5) "k" 7).1 = some [1, 2]
    ∧ (FileCache.GetFile ⟨true, 1, 10, 2⟩ [("k", ⟨[1], 0⟩)] "k" 20
        = (none, eraseKey [("k", ⟨[1], 0⟩)] "k")
      ∧ lookupKey (eraseKey [("k", ⟨[1], 0⟩)] "k") "k" = none) :=
  ⟨(C5_cache_lookup ⟨true, 1, 10, 2⟩ [] "k" [1, 2] 5 7 rfl (by decide) (by decide)
      (by decide) (by decide)).1 (by decide),
    (C5_cache_lookup ⟨true, 1, 10, 2⟩ [("k", ⟨[1], 0⟩)] "k" [] 1 20 rfl (by decide)
      (by decide) (by decide) (by decide)).2.1 ⟨[1], 0⟩ rfl (by decide)⟩

/-- C6: `Store` preserves the at-most-`MaxItems` bound; an insertion
that would exceed the bound evicts exactly one entry, present in the
pre-state, whose timestamp is minimal (strictly the oldest when the
timestamps are pairwise distinct), leaving exactly `MaxItems` entries;
overwriting an existing key resets its data and timestamp in place and
evicts nothing; an oversized payload is rejected and never cached; and
with the default limit 5, inserting 6 distinct keys leaves exactly the
5 newest. -/
theorem C6_store_invariants (opts : CacheOptions) (m : CacheMap) (k : String)
    (data : Bytes) (now : Nat)
    (hEn : opts.Enabled = true)
    (hItems : 1 ≤ opts.MaxItems)
    (hFresh : ∀ e ∈ m, e.2.createAt < now)
    (hNodup : (m.map Prod.fst).Nodup) :
    (m.length ≤ opts.MaxItems → (FileCache.Store opts m k data now).length ≤ opts.MaxItems)
    ∧ (lookupKey m k = none → ¬ data.length > opts.MaxSizeMB * 1024 * 1024 →
        m.length = opts.MaxItems →
        ∃ kold fiOld, (kold, fiOld) ∈ m
          ∧ (∀ e ∈ m, fiOld.createAt ≤ e.2.createAt)
          ∧ (m.Pairwise (fun a b => ¬ a.2.createAt = b.2.createAt) →
              ∀ e ∈ m, ¬ e.1 = kold → fiOld.createAt < e.2.createAt)
          ∧ FileCache.Store opts m k data now
            = eraseKey m kold ++ [(k, (⟨data, now⟩ : FileInformation))]
          ∧ (FileCache.Store opts m k data now).length = opts.MaxItems)
    ∧ (∀ fi, lookupKey m k = some fi → ¬ data.length > opts.MaxSizeMB * 1024 * 1024 →
        FileCache.Store opts m k data now = updateKey m k data now
        ∧ (FileCache.Store opts m k data now).length = m.length
        ∧ lookupKey (FileCache.Store opts m k data now) k = some ⟨data, now⟩
        ∧ (∀ k2, ¬ k2 = k →
            lookupKey (FileCache.Store opts m k data now) k2 = lookupKey m k2))
    ∧ (data.length > opts.MaxSizeMB * 1024 * 1024 → FileCache.Store opts m k data now = m)
    ∧ List.foldl (fun acc p => FileCache.Store ⟨true, 1024, 600, 5⟩ acc p.1 [] p.2) []
        [("a", 1), ("b", 2), ("c", 3), ("d", 4), ("e", 5), ("f", 6)]
      = [("b", ⟨[], 2⟩), ("c", ⟨[], 3⟩), ("d", ⟨[], 4⟩), ("e", ⟨[], 5⟩), ("f", ⟨[], 6⟩)] := by
  refine ⟨?_, ?_, ?_, ?_, by decide⟩
  · intro hlen
    by_cases hsz : data.length > opts.MaxSizeMB * 1024 * 1024
    · have hst : FileCache.Store opts m k data now = m := by
        simp [FileCache.Store, hEn, hsz]
      rw [hst]
      exact hlen
    · cases hlk : lookupKey m k with
      | none =>
        rw [store_new_key opts m k data now hEn hsz hlk]
        by_cases hev : (m ++ [(k, (⟨data, now⟩ : FileInformation))]).length > opts.MaxItems
        · rw [if_pos hev]
          have hm2len : (m ++ [(k, (⟨data, now⟩ : FileInformation))]).length
              = m.length + 1 := by simp
          have hmne : ¬ m = [] := by
            intro h
            subst h
            simp at hev
            omega
          obtain ⟨fiOld, hmemm, _, _, _⟩ := store_evicted_mem m k data now hFresh hmne hlk
          have hmem2 : (findOldest (m ++ [(k, (⟨data, now⟩ : FileInformation))]) now, fiOld)
              ∈ m ++ [(k, (⟨data, now⟩ : FileInformation))] := List.mem_append_left _ hmemm
          have herase := eraseKey_length_of_mem _ _ _ hmem2
          omega
        · rw [if_neg hev]
          simp only [List.length_append, List.length_singleton] at hev ⊢
          omega
      | some fi =>
        have hst : FileCache.Store opts m k data now = updateKey m k data now := by
          simp [FileCache.Store, hEn, hsz, hlk]
        rw [hst, length_updateKey]
        exact hlen
  · intro hlk hsz hlenm
    have hev : (m ++ [(k, (⟨data, now⟩ : FileInformation))]).length > opts.MaxItems := by
      simp only [List.length_append, List.length_singleton]
      omega
    have hmne : ¬ m = [] := by
      intro h
      subst h
      simp at hlenm
      omega
    obtain ⟨fiOld, hmemm, hmin, hlt, hkne⟩ := store_evicted_mem m k data now hFresh hmne hlk
    have hsteq : FileCache.Store opts m k data now
        = eraseKey m (findOldest (m ++ [(k, (⟨data, now⟩ : FileInformation))]) now)
          ++ [(k, (⟨data, now⟩ : FileInformation))] := by
      rw [store_new_key opts m k data now hEn hsz hlk, if_pos hev,
        eraseKey_append_of_mem m _ _ fiOld hmemm]
    refine ⟨findOldest (m ++ [(k, (⟨data, now⟩ : FileInformation))]) now, fiOld,
      hmemm, hmin, ?_, hsteq, ?_⟩
    · intro hDist e he hne
      have hsymm : Symmetric (fun a b : String × FileInformation =>
          ¬ a.2.createAt = b.2.createAt) := fun a b h hh => h hh.symm
      have hne2 : (findOldest (m ++ [(k, (⟨data, now⟩ : FileInformation))]) now, fiOld)
          ≠ e := by
        intro h
        exact hne (by rw [← h])
      have hR := List.Pairwise.forall hsymm hDist hmemm he hne2
      exact lt_of_le_of_ne (hmin e he) hR
    · rw [hsteq]
      have herase := eraseKey_length_of_mem m _ fiOld hmemm
      simp only [List.length_append, List.length_singleton]
      omega
  · intro fi hfi hsz
    have hst : FileCache.Store opts m k data now = updateKey m k data now := by
      simp [FileCache.Store, hEn, hsz, hfi]
    refine ⟨hst, by rw [hst, length_updateKey], ?_, ?_⟩
    · rw [hst]
      exact lookupKey_updateKey_self m k data now fi hfi
    · intro k2 h2
      rw [hst]
      exact lookupKey_updateKey_ne m k k2 data now h2
  · intro hsz
    simp [FileCache.Store, hEn, hsz]

theorem C6_store_invariants_witness :
    (FileCache.Store ⟨true, 1, 10, 2⟩ [("x", ⟨[7], 1⟩), ("y", ⟨[8], 2⟩)] "z" [9] 3).length ≤ 2
    ∧ List.foldl (fun acc p => FileCache.Store ⟨true, 1024, 600, 5⟩ acc p.1 [] p.2) []
        [("a", 1), ("b", 2), ("c", 3), ("d", 4), ("e", 5), ("f", 6)]
      = [("b", ⟨[], 2⟩), ("c", ⟨[], 3⟩), ("d", ⟨[], 4⟩), ("e", ⟨[], 5⟩), ("f", ⟨[], 6⟩)] :=
  ⟨(C6_store_invariants ⟨true, 1, 10, 2⟩ [("x", ⟨[7], 1⟩), ("y", ⟨[8], 2⟩)] "z" [9] 3
      rfl (by decide) (by decide) (by decide)).1 (by decide),
    (C6_store_invariants ⟨true, 1, 10, 2⟩ [] "w" [] 1
      rfl (by decide) (by decide) (by decide)).2.2.2.2⟩

/-! C7: sampling-validation lemmas -/

theorem eraseKey_keys_sublist (m : CacheMap) (k : String) :
    ((eraseKey m k).map Prod.fst).Sublist (m.map Prod.fst) := by
  induction m with
  | nil => simp [eraseKey]
  | cons e rest ih =>
    by_cases he : e.1 = k
    · simp only [eraseKey, if_pos he, List.map_cons]
      exact List.sublist_cons_self _ _
    · simp only [eraseKey, if_neg he, List.map_cons]
      exact List.Sublist.cons₂ _ ih

theorem eraseKey_keys_nodup (m : CacheMap) (k : String)
    (h : (m.map Prod.fst).Nodup) : ((eraseKey m k).map Prod.fst).Nodup :=
  List.Nodup.sublist (eraseKey_keys_sublist m k) h

theorem sampled_key_unique (l : List (String × Nat)) (h : (l.map Prod.fst).Nodup)
    (k : String) (a b : Nat) (ha : (k, a) ∈ l) (hb : (k, b) ∈ l) : a = b := by
  induction l with
  | nil => cases ha
  | cons p rest ih =>
    simp only [List.map_cons, List.nodup_cons] at h
    rcases List.mem_cons.mp ha with ha | ha <;> rcases List.mem_cons.mp hb with hb | hb
    · have : (k, a) = (k, b) := ha.trans hb.symm
      exact (Prod.mk.injEq _ _ _ _).mp this |>.2
    · exfalso
      exact h.1 (by rw [← ha]; simpa using List.mem_map_of_mem Prod.fst hb)
    · exfalso
      exact h.1 (by rw [← hb]; simpa using List.mem_map_of_mem Prod.fst ha)
    · exact ih h.2 ha hb

theorem validateStep_cases (ttl nc nr : Nat) (m : CacheMap) (p : String × Nat) :
    validateStep ttl nc nr m p = m
    ∨ (validateStep ttl nc nr m p = eraseKey m p.1
        ∧ ¬ p.2 = 0 ∧ p.2 + ttl < nc
        ∧ ∃ fi, lookupKey m p.1 = some fi ∧ fi.createAt = p.2 ∧ p.2 + ttl < nr) := by
  by_cases h0 : p.2 = 0
  · exact Or.inl (by simp [validateStep, h0])
  · by_cases h1 : p.2 + ttl < nc
    · cases hlk : lookupKey m p.1 with
      | none => exact Or.inl (by simp [validateStep, h0, h1, hlk])
      | some fi =>
        by_cases h2 : fi.createAt = p.2
        · by_cases h3 : p.2 + ttl < nr
          · refine Or.inr ⟨?_, h0, h1, fi, rfl, h2, h3⟩
            simp [validateStep, h0, h1, hlk, h2, h3]
          · exact Or.inl (by simp [validateStep, h0, h1, hlk, h2, h3])
        · exact Or.inl (by simp [validateStep, h0, h1, hlk, h2])
    · exact Or.inl (by simp [validateStep, h0, h1])

theorem validateLoop_lookup (sampled : List (String × Nat)) (ttl nc nr : Nat) :
    ∀ (m : CacheMap), (m.map Prod.fst).Nodup → ∀ k,
    lookupKey (validateLoop sampled ttl nc nr m) k = lookupKey m k
    ∨ (lookupKey (validateLoop sampled ttl nc nr m) k = none
      ∧ ∃ t fi, (k, t) ∈ sampled ∧ ¬ t = 0 ∧ t + ttl < nc
          ∧ lookupKey m k = some fi ∧ fi.createAt = t ∧ t + ttl < nr) := by
  induction sampled with
  | nil =>
    intro m _ k
    exact Or.inl rfl
  | cons p rest ih =>
    intro m hnd k
    have hloop : validateLoop (p :: rest) ttl nc nr m
        = validateLoop rest ttl nc nr (validateStep ttl nc nr m p) := rfl
    rcases validateStep_cases ttl nc nr m p with hc | ⟨hc, h0, h1, fi, hlk, hca, h3⟩
    · rw [hloop, hc]
      rcases ih m hnd k with h | ⟨hnone, t, fi, hmem, a1, a2, a3, a4, a5⟩
      · exact Or.inl h
      · exact Or.inr ⟨hnone, t, fi, List.mem_cons_of_mem p hmem, a1, a2, a3, a4, a5⟩
    · have hnd' : ((eraseKey m p.1).map Prod.fst).Nodup := eraseKey_keys_nodup m p.1 hnd
      rw [hloop, hc]
      by_cases hk : k = p.1
      · subst hk
        have hnone' : lookupKey (eraseKey m p.1) p.1 = none :=
          lookupKey_eraseKey_self m p.1 hnd
        rcases ih (eraseKey m p.1) hnd' p.1 with h | ⟨_, t, fi', hmem, _, _, hsome, _, _⟩
        · refine Or.inr ⟨by rw [h]; exact hnone', p.2, fi, ?_, h0, h1, hlk, hca, h3⟩
          exact List.mem_cons_self p rest
        · rw [hnone'] at hsome
          cases hsome
      · have hpres : lookupKey (eraseKey m p.1) k = lookupKey m k :=
          lookupKey_eraseKey_ne m p.1 k hk
        rcases ih (eraseKey m p.1) hnd' k with h | ⟨hnone, t, fi', hmem, a1, a2, a3, a4, a5⟩
        · rw [hpres] at h
          exact Or.inl h
        · rw [hpres] at a3
          exact Or.inr ⟨hnone, t, fi', List.mem_cons_of_mem p hmem, a1, a2, a3, a4, a5⟩

theorem sampleCountOf_eq (n r : Nat) (hn : 1 ≤ n) (hr : 1 ≤ r) (hr2 : r ≤ 100) :
    sampleCountOf n r = (n * r + 99) / 100
    ∧ 1 ≤ (n * r + 99) / 100 ∧ (n * r + 99) / 100 ≤ n := by
  have hmul : 1 ≤ n * r := Nat.mul_le_mul hn hr
  have hge : 1 ≤ (n * r + 99) / 100 :=
    (Nat.le_div_iff_mul_le (by norm_num)).mpr (by omega)
  have hlt : (n * r + 99) / 100 < n + 1 := by
    rw [Nat.div_lt_iff_lt_mul (by norm_num : (0 : Nat) < 100)]
    have : n * r ≤ n * 100 := Nat.mul_le_mul_left n hr2
    omega
  have hle : (n * r + 99) / 100 ≤ n := by omega
  refine ⟨?_, hge, hle⟩
  unfold sampleCountOf
  simp only []
  rw [if_neg (by omega : ¬ (n * r + 99) / 100 = 0),
    if_neg (by omega : ¬ (n * r + 99) / 100 > n)]

/-- C7 counterexample: a cache of `n = 1` entry and sampling percentage
`percent = 150` (a valid `uint8` value): the claim's formula
`max(1, ceil(n·percent/100)) = 2`, but the run samples exactly 1 key
(the code clamps the rate to 100 before computing the sample count). -/
theorem C7_sampling_counterexample :
    [("k", 5)] = snapshotOf [("k", ⟨[1], 5⟩)]
    ∧ (SamplingValidation.Apply ⟨150⟩ 1 [("k", 5)] 100 100
        [("k", ⟨[1], 5⟩)]).sampled.length = 1
    ∧ ¬ (SamplingValidation.Apply ⟨150⟩ 1 [("k", 5)] 100 100
        [("k", ⟨[1], 5⟩)]).sampled.length = max 1 ((1 * 150 + 99) / 100) := by
  refine ⟨rfl, by decide, by decide⟩

/-- C7 (amended): for sampling percentage between 1 and 100 (the code
clamps larger values to 100 and samples nothing at 0), a run over a
snapshot of the `n`-entry cache samples the first
`max(1, ceil(n·percent/100))` pairs of the shuffled snapshot — keys
without replacement, all from the snapshot — and deletes a key only if
its snapshot age exceeds the TTL and the entry is, at deletion time,
still present with a timestamp unchanged from the snapshot (and still
expired at the fresh reading); an entry whose timestamp changed
between snapshot and deletion — a concurrent refresh — is never
evicted. -/
theorem C7_sampling_validation (sv : SamplingValidation) (ttl : Nat)
    (cache1 : CacheMap) (shuffled : List (String × Nat)) (nowCheck nowRecheck : Nat)
    (cache2 : CacheMap)
    (hperm : shuffled.Perm (snapshotOf cache1))
    (httl : 1 ≤ ttl)
    (hrate : 1 ≤ sv.SampleRate) (hrate2 : sv.SampleRate ≤ 100)
    (hn : 1 ≤ cache1.length)
    (hNodup1 : (cache1.map Prod.fst).Nodup)
    (hNodup2 : (cache2.map Prod.fst).Nodup) :
    (sv.Apply ttl shuffled nowCheck nowRecheck cache2).err = none
    ∧ (sv.Apply ttl shuffled nowCheck nowRecheck cache2).sampled.length
      = max 1 ((cache1.length * sv.SampleRate + 99) / 100)
    ∧ (∀ e ∈ (sv.Apply ttl shuffled nowCheck nowRecheck cache2).sampled,
        e ∈ snapshotOf cache1)
    ∧ ((sv.Apply ttl shuffled nowCheck nowRecheck cache2).sampled.map Prod.fst).Nodup
    ∧ (∀ k fi, lookupKey cache2 k = some fi →
        lookupKey (sv.Apply ttl shuffled nowCheck nowRecheck cache2).cache k = none →
        ∃ t, (k, t) ∈ (sv.Apply ttl shuffled nowCheck nowRecheck cache2).sampled
          ∧ ¬ t = 0 ∧ t + ttl < nowCheck ∧ fi.createAt = t ∧ t + ttl < nowRecheck)
    ∧ (∀ k fi t, lookupKey cache2 k = some fi →
        (k, t) ∈ (sv.Apply ttl shuffled nowCheck nowRecheck cache2).sampled →
        ¬ fi.createAt = t →
        lookupKey (sv.Apply ttl shuffled nowCheck nowRecheck cache2).cache k = some fi) := by
  have hsnap_len : (snapshotOf cache1).length = cache1.length := by simp [snapshotOf]
  have hlen : shuffled.length = cache1.length := by rw [hperm.length_eq, hsnap_len]
  have h1 : ¬ ttl = 0 := by omega
  have h2 : ¬ sv.SampleRate > 100 := by omega
  have h3 : ¬ sv.SampleRate = 0 := by omega
  have h4 : ¬ shuffled.length = 0 := by omega
  obtain ⟨hc_eq, hc_ge, hc_le⟩ :=
    sampleCountOf_eq shuffled.length sv.SampleRate (by omega) hrate hrate2
  have hval : sv.Apply ttl shuffled nowCheck nowRecheck cache2
      = ⟨none, shuffled.take (sampleCountOf shuffled.length sv.SampleRate),
          validateLoop (shuffled.take (sampleCountOf shuffled.length sv.SampleRate))
            ttl nowCheck nowRecheck cache2⟩ := by
    simp [SamplingValidation.Apply, h1, h2, h3, h4]
  have herr : (sv.Apply ttl shuffled nowCheck nowRecheck cache2).err = none := by
    rw [hval]
  have hsmp : (sv.Apply ttl shuffled nowCheck nowRecheck cache2).sampled
      = shuffled.take (sampleCountOf shuffled.length sv.SampleRate) := by
    rw [hval]
  have hcch : (sv.Apply ttl shuffled nowCheck nowRecheck cache2).cache
      = validateLoop (shuffled.take (sampleCountOf shuffled.length sv.SampleRate))
          ttl nowCheck nowRecheck cache2 := by
    rw [hval]
  have hsnapkeys : (snapshotOf cache1).map Prod.fst = cache1.map Prod.fst := by
    simp [snapshotOf]
  have hkeys_shuffled : (shuffled.map Prod.fst).Nodup := by
    have hmapperm := hperm.map Prod.fst
    rw [hsnapkeys] at hmapperm
    exact hmapperm.nodup_iff.mpr hNodup1
  have hsampled_keys :
      ((shuffled.take (sampleCountOf shuffled.length sv.SampleRate)).map Prod.fst).Nodup :=
    List.Nodup.sublist (List.Sublist.map Prod.fst (List.take_sublist _ _)) hkeys_shuffled
  refine ⟨herr, ?_, ?_, by rw [hsmp]; exact hsampled_keys, ?_, ?_⟩
  · rw [hsmp, List.length_take, hc_eq, Nat.min_eq_left hc_le, hlen]
    rw [hlen] at hc_ge
    omega
  · intro e he
    rw [hsmp] at he
    exact hperm.subset (List.mem_of_mem_take he)
  · intro k fi hfi hnone
    rw [hcch] at hnone
    rcases validateLoop_lookup (shuffled.take (sampleCountOf shuffled.length sv.SampleRate))
        ttl nowCheck nowRecheck cache2 hNodup2 k with h | ⟨_, t, fi', hmem, a1, a2, a3, a4, a5⟩
    · rw [h, hfi] at hnone
      cases hnone
    · have hfieq : fi' = fi := Option.some.inj (a3.symm.trans hfi)
      refine ⟨t, by rw [hsmp]; exact hmem, a1, a2, ?_, a5⟩
      rw [← hfieq]
      exact a4
  · intro k fi t hfi hmem hne
    rw [hsmp] at hmem
    rw [hcch]
    rcases validateLoop_lookup (shuffled.take (sampleCountOf shuffled.length sv.SampleRate))
        ttl nowCheck nowRecheck cache2 hNodup2 k with h | ⟨_, t', fi', hmem', _, _, a3, a4, _⟩
    · rw [h, hfi]
    · exfalso
      have hfieq : fi' = fi := Option.some.inj (a3.symm.trans hfi)
      have hteq : t' = t :=
        sampled_key_unique _ hsampled_keys k t' t hmem' hmem
      exact hne (by rw [← hfieq, a4, hteq])

theorem C7_sampling_validation_witness :
    (SamplingValidation.Apply ⟨50⟩ 10 [("b", 2), ("a", 1)] 100 100
      [("a", ⟨[1], 1⟩), ("b", ⟨[2], 2⟩)]).sampled.length
      = max 1 ((2 * 50 + 99) / 100)
    ∧ (∀ e ∈ (SamplingValidation.Apply ⟨50⟩ 10 [("b", 2), ("a", 1)] 100 100
        [("a", ⟨[1], 1⟩), ("b", ⟨[2], 2⟩)]).sampled,
        e ∈ snapshotOf [("a", ⟨[1], 1⟩), ("b", ⟨[2], 2⟩)]) :=
  ⟨(C7_sampling_validation ⟨50⟩ 10 [("a", ⟨[1], 1⟩), ("b", ⟨[2], 2⟩)]
      [("b", 2), ("a", 1)] 100 100 [("a", ⟨[1], 1⟩), ("b", ⟨[2], 2⟩)]
      (by decide) (by decide) (by decide) (by decide) (by decide) (by decide)
      (by decide)).2.1,
    (C7_sampling_validation ⟨50⟩ 10 [("a", ⟨[1], 1⟩), ("b", ⟨[2], 2⟩)]
      [("b", 2), ("a", 1)] 100 100 [("a", ⟨[1], 1⟩), ("b", ⟨[2], 2⟩)]
      (by decide) (by decide) (by decide) (by decide) (by decide) (by decide)
      (by decide)).2.2.1⟩

end M2CS
